import Mathlib

/-!
Shallow embedding of the email-sender frontend draft form
(`src/pages/private/home/index.tsx`): the tag-input recipient widget,
the localStorage persistence adapter, the mount-time restore, the
submit payload assembly and the submission phase machine.  Definitions
keep the source names (`isValidEmail`, `addTag`, `removeTag`,
`handleKeyDown`, `handlePaste`, `getStoredData`, `setStoredData`,
`onSubmit`).
-/

namespace EmailSender

/-- Characters matched by the JavaScript regex class `\s` (whitespace,
line terminators, and the Unicode space separators). -/
def isJsSpace (c : Char) : Bool :=
  c == ' ' || c == '\t' || c == '\n' || c == '\r' || c == '\x0B' || c == '\x0C' ||
  c == '\u00A0' || c == '\u1680' || (decide ('\u2000' ≤ c) && decide (c ≤ '\u200A')) ||
  c == '\u2028' || c == '\u2029' || c == '\u202F' || c == '\u205F' ||
  c == '\u3000' || c == '\uFEFF'

/-- `String.prototype.trim()`: strip leading and trailing JavaScript
whitespace.  `List.rdropWhile p l = (l.reverse.dropWhile p).reverse`
removes the trailing run. -/
def jsTrim (s : String) : String :=
  String.mk (List.rdropWhile isJsSpace (s.data.dropWhile isJsSpace))

/-- A character matched by the regex class `[^\s@]`. -/
def isTokenChar (c : Char) : Bool :=
  !(isJsSpace c) && !(c == '@')

/-- `/^[^\s@]+@[^\s@]+\.[^\s@]+$/.test`: the character list decomposes as
`A ++ '@' :: B ++ '.' :: C` with `A`, `B`, `C` nonempty lists of `[^\s@]`
characters.  The decomposition is searched over the position `i` of the
`'@'` literal and the position `j` of the `'.'` literal. -/
def emailRegexMatch (s : String) : Bool :=
  let cs := s.data
  let n := cs.length
  (List.range n).any fun i =>
    (List.range n).any fun j =>
      decide (0 < i) && decide (i + 1 < j) && decide (j + 1 < n) &&
      (cs.getD i '@' == '@') && (cs.getD j '@' == '.') &&
      (cs.take i).all isTokenChar &&
      ((cs.drop (i + 1)).take (j - i - 1)).all isTokenChar &&
      (cs.drop (j + 1)).all isTokenChar

/-- `isValidEmail` from the source: test the email regex against the
trimmed candidate. -/
def isValidEmail (email : String) : Bool :=
  emailRegexMatch (jsTrim email)

/-- `addTag` effect on the tag collection: trim the candidate; when it is
nonempty (truthy), passes `isValidEmail` and is not already a tag, append
it; otherwise leave the collection unchanged.  (The transient input
fragment is cleared exactly when the append happens.) -/
def addTag (tags : List String) (email : String) : List String :=
  let trimmedEmail := jsTrim email
  if trimmedEmail != "" && isValidEmail trimmedEmail && !(tags.contains trimmedEmail)
  then tags ++ [trimmedEmail]
  else tags

/-- `removeTag`: `tags.filter((_, index) => index !== indexToRemove)` —
keep the elements whose position differs from `indexToRemove`. -/
def removeTag (tags : List String) (indexToRemove : Nat) : List String :=
  (tags.enum.filter fun p => p.1 != indexToRemove).map Prod.snd

/-- `handleKeyDown` effect on the tag collection: Enter, comma and space
commit the pending fragment through `addTag`; Backspace with an empty
(falsy) fragment and a nonempty collection removes the last chip; every
other key leaves the collection unchanged. -/
def handleKeyDown (tags : List String) (inputValue : String) (key : String) :
    List String :=
  if key == "Enter" || key == "," || key == " " then
    addTag tags inputValue
  else if key == "Backspace" && inputValue == "" && decide (0 < tags.length) then
    removeTag tags (tags.length - 1)
  else
    tags

/-- One delimiter character of the paste-splitting regex class `[,\s\n;]`
(the `\n` of the source is already inside `\s`). -/
def isDelimChar (c : Char) : Bool :=
  c == ',' || isJsSpace c || c == '\n' || c == ';'

/-- Worker for `jsSplitDelims`: `acc` holds the characters of the current
token in reverse; `lastDelim` records whether the previous character was a
delimiter, so that a run of delimiters produces a single cut. -/
def splitDelimsAux : List Char → List Char → Bool → List String
  | [], acc, _ => [String.mk acc.reverse]
  | c :: rest, acc, lastDelim =>
    if isDelimChar c then
      if lastDelim then splitDelimsAux rest acc true
      else String.mk acc.reverse :: splitDelimsAux rest [] true
    else splitDelimsAux rest (c :: acc) false

/-- `pastedText.split(/[,\s\n;]+/)`: split on maximal runs of delimiter
characters (JavaScript semantics: a leading or a trailing run contributes
an empty token, and the empty string splits to `[""]`). -/
def jsSplitDelims (s : String) : List String :=
  splitDelimsAux s.data [] false

/-- The fragment pipeline of `handlePaste`: split the pasted text, trim
each fragment, keep the nonempty (truthy) fragments that pass
`isValidEmail`. -/
def handlePasteEmails (pastedText : String) : List String :=
  ((jsSplitDelims pastedText).map jsTrim).filter fun email =>
    email != "" && isValidEmail email

/-- `handlePaste` effect on the tag collection: of the parsed fragments,
keep those not already committed as tags (`uniqueEmails`) and append them
in paste order when there is at least one.  Fragments repeated inside the
paste itself are each kept by this filter. -/
def handlePaste (tags : List String) (pastedText : String) : List String :=
  let emails := handlePasteEmails pastedText
  let uniqueEmails := emails.filter fun email => !(tags.contains email)
  if decide (0 < uniqueEmails.length) then tags ++ uniqueEmails else tags

/-- JSON values, as produced by `JSON.parse`. -/
inductive Json where
  | null
  | bool (b : Bool)
  | num (n : Int)
  | str (s : String)
  | arr (elems : List Json)
  | obj (fields : List (String × Json))

/-- The record persisted under the single localStorage key
`email-form-data`: fields `recipients?`, `subject?`, `body?`,
`resumeData?`, `resumeName?`, each possibly absent. -/
structure StoredRecord where
  recipients : Option (List String)
  subject : Option String
  body : Option String
  resumeData : Option String
  resumeName : Option String
deriving DecidableEq, Repr

/-- The empty record `\x7b\x7d` returned on every failure path of
`getStoredData`. -/
def emptyRecord : StoredRecord :=
  ⟨none, none, none, none, none⟩

/-- The JSON value `JSON.stringify` serializes a `StoredRecord` to: an
object whose fields are present exactly when the record fields are
(`undefined`-valued fields are omitted from the output). -/
def encodeStored (r : StoredRecord) : Json :=
  Json.obj
    ((match r.recipients with
      | some l => [("recipients", Json.arr (l.map Json.str))]
      | none => []) ++
     (match r.subject with
      | some s => [("subject", Json.str s)]
      | none => []) ++
     (match r.body with
      | some s => [("body", Json.str s)]
      | none => []) ++
     (match r.resumeData with
      | some s => [("resumeData", Json.str s)]
      | none => []) ++
     (match r.resumeName with
      | some s => [("resumeName", Json.str s)]
      | none => []))

/-- Property access on a parsed JSON value: `undefined` for a missing
field or for a non-object. -/
def jsonField (j : Json) (key : String) : Option Json :=
  match j with
  | Json.obj fields => (fields.find? fun p => p.1 == key).map Prod.snd
  | _ => none

/-- Read a JSON value as a string (`undefined` otherwise). -/
def asStr : Json → Option String
  | Json.str s => some s
  | _ => none

/-- Read a JSON value as an array of strings (`undefined` for a
non-array; non-string entries are dropped — the source performs no
validation, and the values it writes are always string arrays). -/
def asStrList : Json → Option (List String)
  | Json.arr es => some (es.filterMap asStr)
  | _ => none

/-- Read a parsed JSON value back as a `StoredRecord`, the way the form
reads the fields of the object `getStoredData()` returns. -/
def decodeStored (j : Json) : StoredRecord :=
  { recipients := (jsonField j "recipients").bind asStrList
    subject := (jsonField j "subject").bind asStr
    body := (jsonField j "body").bind asStr
    resumeData := (jsonField j "resumeData").bind asStr
    resumeName := (jsonField j "resumeName").bind asStr }

/-- The content of the storage key: `none` when the key is absent
(`getItem` returns `null`, falsy), `some (Except.error ())` when it holds
text `JSON.parse` rejects (the empty string, also falsy, lands in the
same bucket), and `some (Except.ok j)` when it holds text parsing to the
JSON value `j`. -/
abbrev Slot := Option (Except Unit Json)

/-- `getStoredData`: the whole read is wrapped in `try/catch`, so a
throwing storage access (`access = Except.error ()`) yields the empty
record, an absent key yields the empty record, malformed content (a
throwing `JSON.parse`) yields the empty record, and otherwise the parsed
value is returned.  The function is total: no path raises to the
caller. -/
def getStoredData (access : Except Unit Slot) : StoredRecord :=
  match access with
  | Except.error _ => emptyRecord
  | Except.ok none => emptyRecord
  | Except.ok (some (Except.error _)) => emptyRecord
  | Except.ok (some (Except.ok j)) => decodeStored j

/-- `setStoredData`: store `JSON.stringify(data)` under the key — text
that parses back to `encodeStored data`.  A throwing `setItem`
(`writeOk = false`) is caught, logged, and leaves the slot unchanged. -/
def setStoredData (writeOk : Bool) (slot : Slot) (data : StoredRecord) : Slot :=
  if writeOk then some (Except.ok (encodeStored data)) else slot

/-- The draft form values: committed recipients, subject, body, and the
name of a file chosen in the current session (if any). -/
structure Draft where
  recipients : List String
  subject : String
  body : String
  resume : Option String
deriving DecidableEq, Repr

/-- JavaScript `a || b` for an optional string: `b` when `a` is absent
(`undefined`) or the empty string (both falsy). -/
def jsOrStr (a : Option String) (b : String) : String :=
  match a with
  | some s => if s = "" then b else s
  | none => b

/-- The default subject of the `useForm` `defaultValues`. -/
def defaultSubject : String := "ReactJS Developer Application"

/-- The default body template of the `useForm` `defaultValues`. -/
def defaultBody : String :=
  "Dear Hiring Manager,\n\nI am writing to express my interest in the ReactJS Developer position. \n\nWith my experience in modern React development and related technologies, I believe I would be a great fit for your team.\n\nPlease find my resume attached for your consideration.\n\nBest regards,\n[Your Name]"

/-- The `useForm` `defaultValues` computed at controller mount from the
stored record: `storedData.recipients || []`, `storedData.subject ||
defaultSubject`, `storedData.body || defaultBody`, `resume: undefined`
(a stored attachment stays in storage; it is not loaded into the resume
field). -/
def mountDraft (stored : StoredRecord) : Draft :=
  { recipients := stored.recipients.getD []
    subject := jsOrStr stored.subject defaultSubject
    body := jsOrStr stored.body defaultBody
    resume := none }

/-- JavaScript truthiness of an optional string field: false for
`undefined` and for the empty string. -/
def jsTruthy (a : Option String) : Bool :=
  match a with
  | some s => s != ""
  | none => false

/-- The outbound multipart payload assembled by `onSubmit`; `resume` is
the name of the attached file, if an attachment is appended. -/
structure Payload where
  email : String
  app_password : String
  recipients : String
  subject : String
  body : String
  resume : Option String
deriving DecidableEq, Repr

/-- `onSubmit` payload assembly: sender credentials, the comma-joined
recipient list, subject, body; a file chosen in this session is attached
directly, otherwise a stored attachment is decoded and attached under its
stored name when both `resumeData` and `resumeName` are truthy, and
otherwise no attachment is appended. -/
def onSubmit (email password : String) (data : Draft) (storedData : StoredRecord) :
    Payload :=
  { email := email
    app_password := password
    recipients := String.intercalate "," data.recipients
    subject := data.subject
    body := data.body
    resume :=
      match data.resume with
      | some f => some f
      | none =>
        if jsTruthy storedData.resumeData && jsTruthy storedData.resumeName
        then storedData.resumeName
        else none }

/-- The settled status of the send mutation (react-query
`useMutation`). -/
structure MutationState where
  isPending : Bool
  isSuccess : Bool
  isError : Bool
deriving DecidableEq, Repr

/-- Observable events of the submission lifecycle: the user presses the
Send button — `press true` is a press in a state with no session file and
a truthy stored attachment, where `onSubmit` returns early and defers
`mutation.mutate` into the `fetch` decode continuation, `press false` a
press on the direct path; a registered decode continuation fires; an
issued send settles with success or failure. -/
inductive SubmitEvent where
  | press (deferred : Bool)
  | decodeDone
  | settle (success : Bool)
deriving DecidableEq, Repr

/-- The submission state: `isPending` is `mutation.isPending` (the
Submitting phase, which disables the Send button), `decoding` counts the
decode continuations registered by early-returning `onSubmit` calls that
have not yet fired, `inFlight` counts the sends issued by
`mutation.mutate` that have not yet settled. -/
structure SendController where
  isPending : Bool
  decoding : Nat
  inFlight : Nat
deriving DecidableEq, Repr

/-- Initial controller state: idle, no decode pending, nothing in
flight. -/
def initController : SendController :=
  { isPending := false, decoding := 0, inFlight := 0 }

/-- One controller step, traced from `onSubmit` and the button wiring: a
press while pending issues nothing (`disabled={mutation.isPending}`); a
press on the direct path calls `mutation.mutate` at once and enters the
pending phase; a press on the stored-attachment path returns early after
registering the `fetch(...).then` decode continuation, leaving the phase
Idle.  A firing decode continuation calls `mutation.mutate`
unconditionally — also while a send is already pending.  A settling send
leaves the pending phase (exact whenever at most one send is in flight,
the only case in which the theorems below use `settle`; with overlapping
sends react-query reflects the most recent `mutate`). -/
def controllerStep (s : SendController) : SubmitEvent → SendController
  | SubmitEvent.press deferred =>
    if s.isPending then s
    else if deferred then { s with decoding := s.decoding + 1 }
    else { s with isPending := true, inFlight := s.inFlight + 1 }
  | SubmitEvent.decodeDone =>
    if s.decoding == 0 then s
    else { isPending := true, decoding := s.decoding - 1, inFlight := s.inFlight + 1 }
  | SubmitEvent.settle _ =>
    if s.inFlight == 0 then s
    else { s with isPending := false, inFlight := s.inFlight - 1 }

/-- Run the controller from the initial state over a list of events. -/
def controllerRun (events : List SubmitEvent) : SendController :=
  events.foldl controllerStep initController

/-- The full submission transaction, traced from `onSubmit` and the
`useMutation` configuration: read the stored record, assemble the
payload, hand it to the send operation, record the settled outcome.  The
source contains no `setStoredData`, `clearStoredData` or `reset` call on
this path and the mutation has no success or error callback, so the
draft and the slot pass through. -/
def submitAndSettle (email password : String) (data : Draft) (slot : Slot)
    (sendSucceeds : Bool) : Payload × Draft × Slot × MutationState :=
  let storedData := getStoredData (Except.ok slot)
  let payload := onSubmit email password data storedData
  (payload, data, slot,
    { isPending := false, isSuccess := sendSucceeds, isError := !sendSucceeds })

/-! Helper lemmas about trimming, and the enumerate-filter shape of
`removeTag`. -/

/-- A list whose head (if any) fails `p` is unchanged by `dropWhile p`. -/
theorem dropWhile_eq_self_of_head {α : Type _} (p : α → Bool) (l : List α)
    (h : ∀ c, l.head? = some c → p c = false) : l.dropWhile p = l := by
  cases l with
  | nil => rfl
  | cons a t => simp [List.dropWhile_cons, h a rfl]

/-- The head of `l.dropWhile p` fails `p`. -/
theorem head_dropWhile_false {α : Type _} (p : α → Bool) (l : List α) {c : α}
    (h : (l.dropWhile p).head? = some c) : p c = false := by
  have H := List.head?_dropWhile_not p l
  rw [h] at H
  exact H

/-- Left-trimming is idempotent across a right trim: the right trim of an
already left-trimmed list is unchanged by another left trim. -/
theorem dropWhile_rdropWhile_dropWhile {α : Type _} (p : α → Bool) (l : List α) :
    (List.rdropWhile p (l.dropWhile p)).dropWhile p
      = List.rdropWhile p (l.dropWhile p) := by
  apply dropWhile_eq_self_of_head
  intro c hc
  obtain ⟨r, hr⟩ := List.rdropWhile_prefix p (l.dropWhile p)
  apply head_dropWhile_false p l
  rw [← hr, List.head?_append, hc]
  rfl

/-- `jsTrim` is idempotent. -/
theorem jsTrim_idem (s : String) : jsTrim (jsTrim s) = jsTrim s := by
  show String.mk (List.rdropWhile isJsSpace
      ((List.rdropWhile isJsSpace (s.data.dropWhile isJsSpace)).dropWhile isJsSpace))
    = String.mk (List.rdropWhile isJsSpace (s.data.dropWhile isJsSpace))
  rw [dropWhile_rdropWhile_dropWhile, List.rdropWhile_idempotent]

/-- `isValidEmail` is invariant under trimming its candidate. -/
theorem isValidEmail_jsTrim (email : String) :
    isValidEmail (jsTrim email) = isValidEmail email := by
  unfold isValidEmail
  rw [jsTrim_idem]

/-- Filtering an enumeration on an index below the starting offset keeps
every element. -/
theorem enumFrom_filter_ne_map_of_lt {α : Type _} (l : List α) (n i : Nat)
    (h : i < n) :
    ((List.enumFrom n l).filter fun p => p.1 != i).map Prod.snd = l := by
  induction l generalizing n with
  | nil => rfl
  | cons a l ih =>
    have hni : (n != i) = true := bne_iff_ne.mpr (Nat.ne_of_gt h)
    simp [List.filter_cons, hni, ih (n + 1) (Nat.lt_succ_of_lt h)]

/-- Filtering an enumeration from offset `n` on the index `n + k` drops
exactly the element `k` places in. -/
theorem enumFrom_filter_ne_map_add {α : Type _} (l : List α) (n k : Nat) :
    ((List.enumFrom n l).filter fun p => p.1 != (n + k)).map Prod.snd
      = l.take k ++ l.drop (k + 1) := by
  induction l generalizing n k with
  | nil => simp
  | cons a l ih =>
    cases k with
    | zero =>
      have hn : (n != n + 0) = false := by simp
      simp [List.filter_cons, hn,
        enumFrom_filter_ne_map_of_lt l (n + 1) n (Nat.lt_succ_self n)]
    | succ k =>
      have hn : (n != n + (k + 1)) = true := bne_iff_ne.mpr (by omega)
      have ih2 := ih (n + 1) k
      rw [show (n + 1) + k = n + (k + 1) from by omega] at ih2
      simp [List.filter_cons, hn, ih2]

/-- `removeTag` is the take-and-drop around the removed index. -/
theorem removeTag_eq_take_append_drop (tags : List String) (i : Nat) :
    removeTag tags i = tags.take i ++ tags.drop (i + 1) := by
  have h := enumFrom_filter_ne_map_add tags 0 i
  simpa [removeTag, List.enum] using h

/-- C3: removing the chip at an in-range index `i` from a collection of
length `n` yields a collection of length `n - 1` holding the elements
before `i` followed by the elements after `i`, in their original relative
order. -/
theorem removeTag_removes_exactly_index (tags : List String) (i : Nat)
    (h : i < tags.length) :
    (removeTag tags i).length = tags.length - 1 ∧
    removeTag tags i = tags.take i ++ tags.drop (i + 1) := by
  refine ⟨?_, removeTag_eq_take_append_drop tags i⟩
  rw [removeTag_eq_take_append_drop, List.length_append, List.length_take,
    List.length_drop]
  omega

/-- C3 witness: removing index 0 from a two-element collection. -/
theorem removeTag_spot :
    (removeTag ["a@b.c", "d@e.f"] 0).length
      = (["a@b.c", "d@e.f"] : List String).length - 1 ∧
    removeTag ["a@b.c", "d@e.f"] 0
      = (["a@b.c", "d@e.f"] : List String).take 0
        ++ (["a@b.c", "d@e.f"] : List String).drop (0 + 1) :=
  removeTag_removes_exactly_index ["a@b.c", "d@e.f"] 0 (by decide)

/-- C2: committing a candidate that is already a tag after trimming, or
that fails the email-shape test, leaves the tag collection unchanged. -/
theorem addTag_noop_on_duplicate_or_invalid (tags : List String) (email : String)
    (h : tags.contains (jsTrim email) = true ∨ isValidEmail email = false) :
    addTag tags email = tags := by
  rcases h with h | h
  · have hmem : jsTrim email ∈ tags := by simpa using h
    simp [addTag, hmem]
  · simp [addTag, isValidEmail_jsTrim, h]

/-- C2 witness: a duplicate candidate and a malformed candidate. -/
theorem addTag_noop_spot :
    addTag ["a@b.c"] "a@b.c" = ["a@b.c"] ∧ addTag [] "not-an-email" = [] :=
  ⟨addTag_noop_on_duplicate_or_invalid _ _ (Or.inl (by decide)),
   addTag_noop_on_duplicate_or_invalid _ _ (Or.inr (by decide))⟩

/-- C10: Backspace with an empty pending fragment removes the last chip of
a nonempty collection; with a nonempty fragment, or with an empty
collection, the collection is unchanged. -/
theorem handleKeyDown_backspace (tags : List String) (inputValue : String) :
    (inputValue = "" → tags ≠ [] →
      handleKeyDown tags inputValue "Backspace" = tags.dropLast) ∧
    (inputValue ≠ "" → handleKeyDown tags inputValue "Backspace" = tags) ∧
    (tags = [] → handleKeyDown tags inputValue "Backspace" = tags) := by
  refine ⟨?_, ?_, ?_⟩
  · intro h1 h2
    subst h1
    have hlen : 0 < tags.length := List.length_pos.mpr h2
    have hrt := removeTag_eq_take_append_drop tags (tags.length - 1)
    rw [show tags.length - 1 + 1 = tags.length from by omega, List.drop_length,
      List.append_nil] at hrt
    rw [List.dropLast_eq_take, ← hrt]
    simp [handleKeyDown, hlen]
  · intro h1
    have hne : (inputValue == "") = false := beq_eq_false_iff_ne.mpr h1
    simp [handleKeyDown, hne]
  · intro h1
    subst h1
    simp [handleKeyDown]

/-- C10 witness: the three Backspace situations on concrete inputs. -/
theorem handleKeyDown_backspace_spot :
    handleKeyDown ["a@b.c"] "" "Backspace" = (["a@b.c"] : List String).dropLast ∧
    handleKeyDown ["a@b.c"] "x" "Backspace" = ["a@b.c"] ∧
    handleKeyDown [] "x" "Backspace" = [] :=
  ⟨(handleKeyDown_backspace ["a@b.c"] "").1 rfl (by decide),
   (handleKeyDown_backspace ["a@b.c"] "x").2.1 (by decide),
   (handleKeyDown_backspace [] "x").2.2 rfl⟩

/-- C1 counterexample: pasting the same valid address twice commits it
twice — `uniqueEmails` filters only against the existing tags, not within
the paste, so the resulting collection does not hold the address exactly
once. -/
theorem handlePaste_within_paste_duplicate :
    handlePaste [] "a@b.c a@b.c" = ["a@b.c", "a@b.c"] ∧
    ¬ (handlePaste [] "a@b.c a@b.c").Nodup :=
  ⟨by decide, by decide⟩

/-- C1 (amended): a paste commits, in first-seen order, exactly the
parsed valid fragments not already present among the tags; when the
existing tags are duplicate-free and the valid fragments of the paste are
pairwise distinct, the result holds each address exactly once, and an
address is present exactly when it was a tag or a valid pasted
fragment. -/
theorem handlePaste_unique_commit (tags : List String) (s : String)
    (h1 : tags.Nodup) (h2 : (handlePasteEmails s).Nodup) :
    handlePaste tags s
      = tags ++ (handlePasteEmails s).filter (fun e => !(tags.contains e)) ∧
    (handlePaste tags s).Nodup ∧
    ∀ e, e ∈ handlePaste tags s ↔ (e ∈ tags ∨ e ∈ handlePasteEmails s) := by
  have heq : handlePaste tags s
      = tags ++ (handlePasteEmails s).filter (fun e => !(tags.contains e)) := by
    by_cases h : 0 < ((handlePasteEmails s).filter fun e => !(tags.contains e)).length
    · simp [handlePaste, h]
    · have hnil : ((handlePasteEmails s).filter fun e => !(tags.contains e)) = [] :=
        List.length_eq_zero.mp (by omega)
      simp [handlePaste, h, hnil]
  refine ⟨heq, ?_, ?_⟩
  · rw [heq]
    refine List.Nodup.append h1 (h2.filter _) ?_
    intro a ha haf
    have hmem := List.mem_filter.mp haf
    have hnotin : a ∉ tags := by simpa using hmem.2
    exact hnotin ha
  · intro e
    rw [heq]
    simp only [List.mem_append, List.mem_filter, Bool.not_eq_true']
    constructor
    · rintro (h | ⟨h, _⟩)
      · exact Or.inl h
      · exact Or.inr h
    · rintro (h | h)
      · exact Or.inl h
      · by_cases hin : e ∈ tags
        · exact Or.inl hin
        · exact Or.inr ⟨h, by simpa using hin⟩

/-- C1 witness: a paste of two distinct valid addresses onto a
duplicate-free collection. -/
theorem handlePaste_unique_commit_spot :
    handlePaste ["x@y.zz"] "a@b.c, d@e.f"
      = ["x@y.zz"] ++ (handlePasteEmails "a@b.c, d@e.f").filter
          (fun e => !((["x@y.zz"] : List String).contains e)) ∧
    (handlePaste ["x@y.zz"] "a@b.c, d@e.f").Nodup ∧
    ∀ e, e ∈ handlePaste ["x@y.zz"] "a@b.c, d@e.f"
      ↔ (e ∈ (["x@y.zz"] : List String) ∨ e ∈ handlePasteEmails "a@b.c, d@e.f") :=
  handlePaste_unique_commit ["x@y.zz"] "a@b.c, d@e.f" (by decide) (by decide)

/-- C4: the load never raises (it is a total function into records), and
a throwing storage access, an absent key, or malformed stored content all
yield the empty record. -/
theorem getStoredData_empty_on_failure (access : Except Unit Slot)
    (h : access = Except.error () ∨ access = Except.ok none ∨
      access = Except.ok (some (Except.error ()))) :
    getStoredData access = emptyRecord := by
  rcases h with h | h | h <;> subst h <;> rfl

/-- C4 witness: a throwing storage access. -/
theorem getStoredData_empty_on_failure_spot :
    getStoredData (Except.error ()) = emptyRecord :=
  getStoredData_empty_on_failure (Except.error ()) (Or.inl rfl)

/-- Reading back the string array written for the recipients field. -/
theorem asStr_filterMap_map_str (l : List String) :
    List.filterMap (asStr ∘ Json.str) l = l := by
  induction l with
  | nil => rfl
  | cons a l ih => simp [asStr, Function.comp, ih]

/-- Decoding inverts encoding on every stored record. -/
theorem decodeStored_encodeStored (r : StoredRecord) :
    decodeStored (encodeStored r) = r := by
  obtain ⟨rec, sub, bod, rd, rn⟩ := r
  cases rec <;> cases sub <;> cases bod <;> cases rd <;> cases rn <;>
    simp [decodeStored, encodeStored, jsonField, asStr, asStrList,
      asStr_filterMap_map_str, List.find?]

/-- C5: saving a record through the Persistence Adapter and loading it
back, with no intervening mutation and no storage failure, returns the
record field-for-field. -/
theorem storedData_roundtrip (r : StoredRecord) (slot : Slot) :
    getStoredData (Except.ok (setStoredData true slot r)) = r :=
  decodeStored_encodeStored r

/-- C6: with no file chosen in this session, a stored attachment named
`resume.pdf` with a nonempty encoding is attached to the payload under
the name `resume.pdf`; and with either the stored encoding or the stored
name absent, the payload carries no attachment. -/
theorem onSubmit_stored_attachment (email password : String) (data : Draft)
    (stored : StoredRecord) :
    (∀ d : String, data.resume = none → stored.resumeName = some "resume.pdf" →
      stored.resumeData = some d → d ≠ "" →
      (onSubmit email password data stored).resume = some "resume.pdf") ∧
    (data.resume = none →
      (stored.resumeData = none ∨ stored.resumeName = none) →
      (onSubmit email password data stored).resume = none) := by
  constructor
  · intro d h1 h2 h3 h4
    simp [onSubmit, h1, h2, h3, jsTruthy, h4]
  · intro h1 h2
    rcases h2 with h2 | h2 <;> simp [onSubmit, h1, h2, jsTruthy]

/-- C6 witness: a stored `resume.pdf` is attached; an absent encoding
yields no attachment. -/
theorem onSubmit_stored_attachment_spot :
    (onSubmit "me@x.co" "pw" ⟨["r@s.tu"], "Sub", "Body text!", none⟩
      ⟨none, none, none, some "data:application/pdf;base64,AAAA", some "resume.pdf"⟩).resume
      = some "resume.pdf" ∧
    (onSubmit "me@x.co" "pw" ⟨["r@s.tu"], "Sub", "Body text!", none⟩
      ⟨none, none, none, none, some "resume.pdf"⟩).resume = none :=
  ⟨(onSubmit_stored_attachment "me@x.co" "pw" _ _).1 _ rfl rfl rfl (by decide),
   (onSubmit_stored_attachment "me@x.co" "pw" _ _).2 rfl (Or.inl rfl)⟩

/-- C7 counterexample: with no session file and a truthy stored
attachment, a press defers `mutation.mutate` into the `fetch` decode
continuation and returns with `isPending` still false, so a second press
is accepted; the continuations call `mutation.mutate` unconditionally, so
after the first fires the controller is in the Submitting phase and the
second continuation still issues a second send — two sends concurrently
in flight. -/
theorem controller_double_submit_cex :
    (controllerRun [SubmitEvent.press true, SubmitEvent.press true,
        SubmitEvent.decodeDone]).isPending = true ∧
    (controllerStep (controllerRun [SubmitEvent.press true, SubmitEvent.press true,
        SubmitEvent.decodeDone]) SubmitEvent.decodeDone).inFlight = 2 ∧
    ¬ (controllerRun [SubmitEvent.press true, SubmitEvent.press true,
        SubmitEvent.decodeDone, SubmitEvent.decodeDone]).inFlight ≤ 1 :=
  ⟨rfl, rfl, by decide⟩

/-- In runs without the deferred stored-attachment path, no decode
continuation is ever outstanding and the in-flight count is one exactly
in the pending phase, zero otherwise. -/
theorem controllerRun_direct_inv (events : List SubmitEvent)
    (h : ∀ e ∈ events, e ≠ SubmitEvent.press true) :
    (controllerRun events).decoding = 0 ∧
    (controllerRun events).inFlight
      = (if (controllerRun events).isPending then 1 else 0) := by
  suffices H : ∀ evts : List SubmitEvent,
      (∀ e ∈ evts, e ≠ SubmitEvent.press true) →
      ∀ s : SendController, s.decoding = 0 →
      (s.inFlight = if s.isPending then 1 else 0) →
        (evts.foldl controllerStep s).decoding = 0 ∧
        ((evts.foldl controllerStep s).inFlight
          = if (evts.foldl controllerStep s).isPending then 1 else 0) by
    exact H events h initController rfl rfl
  intro evts
  induction evts with
  | nil => exact fun _ s hd hs => ⟨hd, hs⟩
  | cons e evts ih =>
    intro hall s hd hs
    have htail : ∀ e2 ∈ evts, e2 ≠ SubmitEvent.press true :=
      fun e2 he2 => hall e2 (List.mem_cons_of_mem _ he2)
    have hhead : e ≠ SubmitEvent.press true := hall e (List.mem_cons_self _ _)
    have hstep : (controllerStep s e).decoding = 0 ∧
        ((controllerStep s e).inFlight
          = if (controllerStep s e).isPending then 1 else 0) := by
      cases e with
      | press deferred =>
        cases deferred with
        | true => exact absurd rfl hhead
        | false =>
          by_cases hp : s.isPending
          · rw [show controllerStep s (SubmitEvent.press false) = s from by
              simp [controllerStep, hp]]
            exact ⟨hd, hs⟩
          · have h0 : s.inFlight = 0 := by simpa [hp] using hs
            simp [controllerStep, hp, hd, h0]
      | decodeDone =>
        rw [show controllerStep s SubmitEvent.decodeDone = s from by
          simp [controllerStep, hd]]
        exact ⟨hd, hs⟩
      | settle ok =>
        by_cases hz : s.inFlight = 0
        · rw [show controllerStep s (SubmitEvent.settle ok) = s from by
            simp [controllerStep, hz]]
          exact ⟨hd, hs⟩
        · have h1 : s.inFlight = 1 := by
            revert hs
            split <;> omega
          simp [controllerStep, hz, h1, hd]
    rw [List.foldl_cons]
    exact ih htail (controllerStep s e) hstep.1 hstep.2

/-- C7 (amended): in every reachable state, while the controller is in
the pending (Submitting) phase a press issues nothing — the Send control
is disabled, so the state is unchanged; and in runs where every
submission takes the direct path (a session file present, or no truthy
stored attachment), two sends are never concurrently in flight.  On the
stored-attachment path the send is deferred into an asynchronous decode
continuation while the phase is still Idle, and there repeated presses
can put two sends concurrently in flight. -/
theorem controller_no_double_submit (events : List SubmitEvent) :
    (∀ deferred : Bool, (controllerRun events).isPending = true →
      controllerStep (controllerRun events) (SubmitEvent.press deferred)
        = controllerRun events) ∧
    ((∀ e ∈ events, e ≠ SubmitEvent.press true) →
      (controllerRun events).inFlight ≤ 1) := by
  constructor
  · intro deferred hp
    simp [controllerStep, hp]
  · intro h
    rw [(controllerRun_direct_inv events h).2]
    split <;> omega

/-- C7 witness: after one direct press the controller is pending with one
send in flight, a second press changes nothing, and the in-flight count
is at most one. -/
theorem controller_no_double_submit_spot :
    controllerStep (controllerRun [SubmitEvent.press false]) (SubmitEvent.press false)
      = controllerRun [SubmitEvent.press false] ∧
    (controllerRun [SubmitEvent.press false]).inFlight ≤ 1 :=
  ⟨(controller_no_double_submit [SubmitEvent.press false]).1 false (by decide),
   (controller_no_double_submit [SubmitEvent.press false]).2 (by decide)⟩

/-- C8: a submission, whether the send settles in success or in failure,
leaves both the draft and the persisted slot exactly as they were (and
hence the record a later load sees), while only the mutation status
settles; nothing clears the persisted draft after a successful send. -/
theorem submitAndSettle_frame (email password : String) (data : Draft)
    (slot : Slot) (sendSucceeds : Bool) :
    (submitAndSettle email password data slot sendSucceeds).2.1 = data ∧
    (submitAndSettle email password data slot sendSucceeds).2.2.1 = slot ∧
    getStoredData (Except.ok
        (submitAndSettle email password data slot sendSucceeds).2.2.1)
      = getStoredData (Except.ok slot) :=
  ⟨rfl, rfl, rfl⟩

/-- C9 counterexample: with the storage slot absent the mounted draft is
not empty — the subject and the body are filled from the defaults. -/
theorem mountDraft_not_empty_cex :
    (mountDraft (getStoredData (Except.ok none))).subject ≠ "" ∧
    (mountDraft (getStoredData (Except.ok none))).body ≠ "" :=
  ⟨by decide, by decide⟩

/-- C9 (amended): at controller mount, an absent or empty storage slot
yields the template draft — no recipients, the default subject, the
default body, no session file; a stored record whose subject and body are
present and nonempty is restored field-for-field into the form values
(the stored attachment stays in storage and is not loaded into the
session resume field). -/
theorem mountDraft_restore (recips : List String) (sub bod : String)
    (rd rn : Option String) (hs : sub ≠ "") (hb : bod ≠ "") :
    mountDraft (getStoredData (Except.ok none))
      = { recipients := [], subject := defaultSubject, body := defaultBody,
          resume := none } ∧
    mountDraft
        { recipients := some recips, subject := some sub, body := some bod,
          resumeData := rd, resumeName := rn }
      = { recipients := recips, subject := sub, body := bod, resume := none } := by
  constructor
  · rfl
  · simp [mountDraft, jsOrStr, hs, hb]

/-- C9 witness: restoring a concrete stored record. -/
theorem mountDraft_restore_spot :
    mountDraft (getStoredData (Except.ok none))
      = { recipients := [], subject := defaultSubject, body := defaultBody,
          resume := none } ∧
    mountDraft
        { recipients := some ["a@b.c"], subject := some "Hello",
          body := some "A body of text.", resumeData := none, resumeName := none }
      = { recipients := ["a@b.c"], subject := "Hello", body := "A body of text.",
          resume := none } :=
  mountDraft_restore ["a@b.c"] "Hello" "A body of text." none none
    (by decide) (by decide)

end EmailSender
